import Mathlib

/-!
Verification development for the `book_translation_using_openai` repository.

The Python sources (`book_translator.py`, `merge_translations.py`) are shallowly
embedded below.  Text is represented by `String` (with the underlying `List Char`
used by the regex-scanner embeddings).  The external tokenizer wrapped by
`count_tokens` (tiktoken) is not part of the repository, so token counting is a
parameter `tok : String → Nat` of every definition that uses it; the budget
`self.max_tokens = 2000` is the literal constant from the source.  The external
OpenAI endpoint is modelled by an oracle `api : Nat → ApiResult` giving the
outcome of the n-th call of a run, and file I/O by `Except`-valued read/write
results.  Python's `re` operations are embedded as explicit character scanners
whose semantics match the concrete regexes used by the source
(`\n=+\n`, `Page (\d+)`, `Page \d+\n-+\n`, `([.!?])\s+`, `={80}\n.*?\n.*?\n={80}`
with DOTALL) on the character classes that occur; greedy `+` runs over a single
repeated character followed by a fixed character need no backtracking, and the
two non-greedy `.*?` groups of the header regex resolve to
"first newline, then earliest following `\n={80}`".  Python `str.strip` is
embedded as `pstrip` (whitespace trimming on both ends), `str.split('\n\n')`
as the scanner `par2Aux`, and `str.startswith` as `pstartsWith`.
-/

/-- Characters considered whitespace by the embedding of Python `str.strip`
(space, tab, carriage return, newline — the cases occurring in this pipeline). -/
def wsChar (c : Char) : Bool := c.isWhitespace

/-- Strip whitespace from both ends of a character list (Python `str.strip()`). -/
def stripL (cs : List Char) : List Char :=
  ((cs.dropWhile wsChar).reverse.dropWhile wsChar).reverse

/-- Python `str.strip()` on strings. -/
def pstrip (s : String) : String := String.mk (stripL s.data)

/-- Python `str.startswith(pre)`. -/
def pstartsWith (s pre : String) : Bool := pre.data.isPrefixOf s.data

/-- Python `sep.join(parts)`. -/
def joinSep (sep : String) : List String → String
  | [] => ""
  | [a] => a
  | a :: rest => a ++ sep ++ joinSep sep rest

/-- Prepend a character to the first block of a block list (scanner helper). -/
def consHead (c : Char) : List (List Char) → List (List Char)
  | [] => [[c]]
  | l :: ls => (c :: l) :: ls

/-- The characters held back while the page-separator scanner sits after a
newline followed by `n` equals signs. -/
def pendingChars (n : Nat) : List Char := '\n' :: List.replicate n '='

/-- Scanner for `re.split(r'\n=+\n', text)` (book_translator.py line 39).
`acc` is the current segment; `some n` means a `'\n'` followed by `n` `'='`
characters has been read and may still complete a separator. -/
def spAux : List Char → List Char → Option Nat → List (List Char)
  | [], acc, none => [acc]
  | [], acc, some n => [acc ++ pendingChars n]
  | c :: cs, acc, none =>
    if c = '\n' then spAux cs acc (some 0) else spAux cs (acc ++ [c]) none
  | c :: cs, acc, some n =>
    if c = '=' then spAux cs acc (some (n + 1))
    else if c = '\n' then
      if n = 0 then spAux cs (acc ++ ['\n']) (some 0)
      else acc :: spAux cs [] none
    else spAux cs (acc ++ pendingChars n ++ [c]) none

/-- `re.split(r'\n=+\n', text)` on character lists. -/
def pagesL (cs : List Char) : List (List Char) := spAux cs [] none

/-- The page list of `_split_text` (book_translator.py line 39):
`pages = re.split(r'\n=+\n', text)`. -/
def pages (text : String) : List String := (pagesL text.data).map fun l => String.mk l

/-- Try to match `Page (\d+)` at the head of the list; on success return the
whole match `Page <digits>` (maximal digit run). -/
def tryPageAt : List Char → Option (List Char)
  | 'P' :: 'a' :: 'g' :: 'e' :: ' ' :: rest =>
    let ds := rest.takeWhile Char.isDigit
    if ds.isEmpty then none
    else some ('P' :: 'a' :: 'g' :: 'e' :: ' ' :: ds)
  | _ => none

/-- `re.search(r'Page (\d+)', page)` (book_translator.py line 49): first match
anywhere in the list, returned as the matched text (`group(0)`). -/
def pageSearchL : List Char → Option (List Char)
  | [] => none
  | c :: cs =>
    match tryPageAt (c :: cs) with
    | some m => some m
    | none => pageSearchL cs

/-- Try to match `Page \d+\n-+\n` at the head of the list; on success return
the remainder after the match. -/
def tryPageHdrAt : List Char → Option (List Char)
  | 'P' :: 'a' :: 'g' :: 'e' :: ' ' :: rest =>
    let ds := rest.takeWhile Char.isDigit
    if ds.isEmpty then none
    else
      match rest.drop ds.length with
      | '\n' :: rest2 =>
        let hs := rest2.takeWhile fun c => c = '-'
        if hs.isEmpty then none
        else
          match rest2.drop hs.length with
          | '\n' :: rest3 => some rest3
          | _ => none
      | _ => none
  | _ => none

/-- Fuel-indexed scanner for `re.sub(r'Page \d+\n-+\n', '', page)`
(book_translator.py line 53); each step consumes at least one character, so
fuel = length of the input suffices. -/
def subAux : Nat → List Char → List Char
  | 0, cs => cs
  | _ + 1, [] => []
  | fuel + 1, c :: cs =>
    match tryPageHdrAt (c :: cs) with
    | some rest => subAux fuel rest
    | none => c :: subAux fuel cs

/-- `re.sub(r'Page \d+\n-+\n', '', page)` on character lists. -/
def subPageHdr (cs : List Char) : List Char := subAux cs.length cs

/-- Scanner for Python `content.split('\n\n')` (book_translator.py line 57):
cut at each non-overlapping, leftmost occurrence of two consecutive newlines. -/
def par2Aux : List Char → List (List Char)
  | [] => [[]]
  | '\n' :: '\n' :: rest => [] :: par2Aux rest
  | c :: rest => consHead c (par2Aux rest)

/-- Fuel-indexed scanner for `re.split(r'([.!?])\s+', para)`
(book_translator.py line 70): the list alternates text segments and captured
single-character punctuation groups, and the greedy `\s+` swallows the whole
whitespace run after the punctuation mark. -/
def ssAux : Nat → List Char → List (List Char)
  | 0, cs => [cs]
  | _ + 1, [] => [[]]
  | _ + 1, [c] => [[c]]
  | fuel + 1, c :: d :: rest =>
    if (c = '.' ∨ c = '!' ∨ c = '?') ∧ wsChar d then
      [] :: [c] :: ssAux fuel (rest.dropWhile wsChar)
    else consHead c (ssAux fuel (d :: rest))

/-- `re.split(r'([.!?])\s+', para)` on character lists. -/
def splitSentL (cs : List Char) : List (List Char) := ssAux cs.length cs

/-- The `for i in range(0, len(sentences), 2)` loop of book_translator.py
lines 74–78: re-attach each captured punctuation group to the text before it;
a trailing text segment without punctuation stays alone. -/
def pairUp : List String → List String
  | [] => []
  | [s] => [s]
  | s :: p :: rest => (s ++ p) :: pairUp rest

/-- `f"{page_num}\n{para}" if page_num else para` (book_translator.py
lines 65 and 80). -/
def labelText : Option String → String → String
  | some p, s => p ++ "\n" ++ s
  | none, s => s

/-- The greedy sentence-accumulation loop of book_translator.py lines 71–94.
The input list holds the already-labelled `sentence_text` values; `cur` and
`curTok` are `current_sentence_chunk` and `current_sentence_tokens`.  Each
emitted element is one chunk, kept as its list of fragments (the source joins
the fragments with `'\n'.join` at emission). -/
def accSentences (tok : String → Nat) (M : Nat) :
    List String → List String → Nat → List (List String)
  | [], cur, _ => if cur = [] then [] else [cur]
  | st :: rest, cur, curTok =>
    if curTok + tok st > M then
      if cur = [] then accSentences tok M rest [st] (tok st)
      else cur :: accSentences tok M rest [st] (tok st)
    else accSentences tok M rest (cur ++ [st]) (curTok + tok st)

/-- The per-paragraph body of `_split_text` (book_translator.py lines 64–96):
emit the labelled paragraph as a single-fragment chunk when it fits the token
budget, otherwise fall back to sentence splitting and greedy accumulation. -/
def paraChunks (tok : String → Nat) (M : Nat) (pageNum : Option String)
    (para : String) : List (List String) :=
  let chunkText := labelText pageNum para
  if tok chunkText > M then
    let sentences := pairUp ((splitSentL para.data).map fun l => String.mk l)
    accSentences tok M (sentences.map (labelText pageNum)) [] 0
  else [[chunkText]]

/-- `page_match.group(0) if page_match else None` (book_translator.py
lines 49–50). -/
def pageLabel (page : String) : Option String :=
  (pageSearchL page.data).map fun l => String.mk l

/-- `content = re.sub(r'Page \d+\n-+\n', '', page).strip()` (book_translator.py
line 53). -/
def pageContent (page : String) : String := String.mk (stripL (subPageHdr page.data))

/-- The stripped, non-empty paragraphs of a page's cleaned content
(book_translator.py lines 57–62). -/
def pageParas (page : String) : List String :=
  (((par2Aux (pageContent page).data).map fun l => String.mk (stripL l)).filter
    fun p => p ≠ "")

/-- The chunks contributed by one page in `_split_text` (book_translator.py
lines 44–96), as fragment lists. -/
def pageChunksF (tok : String → Nat) (M : Nat) (page : String) : List (List String) :=
  if pstrip page = "" then []
  else if pageContent page = "" then []
  else (pageParas page).flatMap (paraChunks tok M (pageLabel page))

/-- All chunks of `_split_text`, each kept as its fragment list. -/
def splitTextFrag (tok : String → Nat) (M : Nat) (text : String) : List (List String) :=
  (pages text).flatMap (pageChunksF tok M)

/-- `BookTranslator._split_text` (book_translator.py lines 34–98) with the
source's budget `self.max_tokens = 2000`: the emitted chunk strings, each the
newline-join of its fragments. -/
def split_text (tok : String → Nat) (text : String) : List String :=
  (splitTextFrag tok 2000 text).map (joinSep "\n")

/-- Spec-level description of one page's expected chunks in the fitting case:
one labelled candidate per stripped, non-empty paragraph of a non-blank page. -/
def pageCand (page : String) : List String :=
  if pstrip page = "" then []
  else if pageContent page = "" then []
  else (pageParas page).map (labelText (pageLabel page))

/-- Spec-level description of the fitting case (one chunk per non-empty
paragraph): every page's stripped, non-empty paragraphs, labelled with the
page's `Page <n>` marker when present, in original page and paragraph order.
This follows the specification's words and is compared against `split_text`. -/
def specCandidates (text : String) : List String :=
  (pages text).flatMap pageCand

/-- Outcome of one call to the external completion endpoint: the response
content, or a raised transport/API error with its message. -/
inductive ApiResult where
  | ok (content : String)
  | err (msg : String)
deriving DecidableEq

/-- Observable events of a `translate_book` run: a submitted translation
request, the fixed rate-limit delay, a printed diagnostic line, and the final
file write. -/
inductive Ev where
  | call (text : String)
  | sleep (secs : Nat)
  | log (msg : String)
  | writeFile (content : String)
deriving DecidableEq

/-- `BookTranslator.translate_text` (book_translator.py lines 100–121): on a
successful endpoint response return the stripped content; on any raised error
catch it, print `Error during translation: ...`, and return `None`.  The result
is the returned value paired with the printed diagnostics. -/
def translate_text : ApiResult → Option String × List Ev
  | .ok content => (some (pstrip content), [])
  | .err e => (none, [Ev.log ("Error during translation: " ++ e)])

/-- Python truthiness applied to a `translate_text` result
(`if translated_chunk:` / `if translated_header:`): `None` and the empty
string are falsy. -/
def keptResult (r : ApiResult) : Option String :=
  match (translate_text r).1 with
  | some s => if s = "" then none else some s
  | none => none

/-- The chunk loop of `translate_book` (book_translator.py lines 148–158):
for each chunk print its token count, call `translate_text`; on a truthy
result append it and sleep 2 seconds, otherwise print a warning.  `n` is the
index of the next endpoint call; the result is the event trace paired with
the accumulated `translated_sections` of the loop. -/
def chunkLoop (tok : String → Nat) (api : Nat → ApiResult) :
    Nat → List String → List Ev × List String
  | _, [] => ([], [])
  | n, ch :: rest =>
    let tr := translate_text (api n)
    let evs := Ev.log ("Processing chunk with " ++ toString (tok ch) ++ " tokens")
      :: Ev.call ch :: tr.2
    let r := chunkLoop tok api (n + 1) rest
    match tr.1 with
    | some s =>
      if s = "" then (evs ++ Ev.log "Warning: Failed to translate chunk" :: r.1, r.2)
      else (evs ++ Ev.sleep 2 :: r.1, s :: r.2)
    | none => (evs ++ Ev.log "Warning: Failed to translate chunk" :: r.1, r.2)

/-- Split a character list at its first newline: `some (before, after)` when a
newline exists. -/
def splitFirstNl : List Char → Option (List Char × List Char)
  | [] => none
  | c :: cs =>
    if c = '\n' then some ([], cs)
    else
      match splitFirstNl cs with
      | some (a, t) => some (c :: a, t)
      | none => none

/-- Earliest occurrence of `'\n'` followed by 80 `'='` characters: returns the
part before the occurrence. -/
def findNlEq80 : List Char → Option (List Char)
  | [] => none
  | c :: cs =>
    if (c :: cs).take 81 = '\n' :: List.replicate 80 '=' then some []
    else
      match findNlEq80 cs with
      | some b => some (c :: b)
      | none => none

/-- `re.match(r'(={80}\n.*?\n.*?\n={80})', book_text, re.DOTALL)`
(book_translator.py line 140) on character lists.  The text must start with
80 `'='` followed by a newline; the first non-greedy group is the text up to
the first following newline and the second extends to the earliest subsequent
`'\n'` followed by 80 `'='` (with DOTALL both groups may span newlines, so no
further backtracking can occur).  Returns `group(1)`, the whole match. -/
def headerMatchL (cs : List Char) : Option (List Char) :=
  let eq80 := List.replicate 80 '='
  if cs.take 81 = eq80 ++ ['\n'] then
    match splitFirstNl (cs.drop 81) with
    | some (a, tail) =>
      match findNlEq80 tail with
      | some b => some (eq80 ++ '\n' :: a ++ '\n' :: b ++ '\n' :: eq80)
      | none => none
    | none => none
  else none

/-- The header match of `translate_book` on strings. -/
def headerMatch (text : String) : Option String :=
  (headerMatchL text.data).map fun l => String.mk l

/-- 1 when a header block was matched (the header consumes endpoint call 0),
otherwise 0. -/
def hCount (text : String) : Nat :=
  match headerMatch text with
  | some _ => 1
  | none => 0

/-- Events of the header phase of `translate_book` (book_translator.py
lines 140–145): one endpoint call with the matched header, plus the
diagnostics `translate_text` prints. -/
def hEvsOf (api : Nat → ApiResult) (text : String) : List Ev :=
  match headerMatch text with
  | some h => Ev.call h :: (translate_text (api 0)).2
  | none => []

/-- Sections contributed by the header phase: the translated header when the
call's result is truthy. -/
def hSecsOf (api : Nat → ApiResult) (text : String) : List String :=
  match headerMatch text with
  | some _ => (keptResult (api 0)).toList
  | none => []

/-- The body of `translate_book` (book_translator.py lines 130–167) inside its
`try:` block.  A raised exception is `.error (evs, msg)` carrying the events
emitted before the raise: reading the input may raise (`readRes`), the final
write may raise (`writeRes`); everything in between is total. -/
def bookBody (tok : String → Nat) (api : Nat → ApiResult) (output_file : String)
    (readRes : Except String String) (writeRes : Except String Unit) :
    Except (List Ev × String) (List Ev) :=
  match readRes with
  | .error e => .error ([], e)
  | .ok book_text =>
    let chunks := split_text tok book_text
    let hEvs := hEvsOf api book_text
    let hSecs := hSecsOf api book_text
    let r := chunkLoop tok api (hCount book_text) chunks
    let translated := joinSep "\n\n" (hSecs ++ r.2)
    match writeRes with
    | .error e => .error (hEvs ++ r.1, e)
    | .ok _ =>
      .ok (hEvs ++ r.1 ++
        [Ev.writeFile translated,
         Ev.log ("Book translation completed. Output saved to " ++ output_file)])

/-- `BookTranslator.translate_book` (book_translator.py lines 123–170): the
whole body runs under `try: ... except Exception as e:` which prints
`Error during book translation: ...`, so the function always returns normally;
the result is the event trace of the run. -/
def translate_book (tok : String → Nat) (api : Nat → ApiResult) (output_file : String)
    (readRes : Except String String) (writeRes : Except String Unit) : List Ev :=
  match bookBody tok api output_file readRes writeRes with
  | .ok evs => evs
  | .error (evs, e) => evs ++ [Ev.log ("Error during book translation: " ++ e)]

/-- What escapes a call of `translate_book`: `.error` would mean an exception
propagates past its boundary.  Because the source wraps the whole body in a
catch-all `except Exception` handler (book_translator.py lines 169–170), the
call always returns normally. -/
def translateBookEx (tok : String → Nat) (api : Nat → ApiResult) (output_file : String)
    (readRes : Except String String) (writeRes : Except String Unit) :
    Except String (List Ev) :=
  .ok (translate_book tok api output_file readRes writeRes)

/-- The texts submitted to the translation endpoint, in call order. -/
def callTexts (evs : List Ev) : List String :=
  evs.filterMap fun ev =>
    match ev with
    | .call t => some t
    | _ => none

/-- The contents written to the output file. -/
def writtenOf (ev : Ev) : Option String :=
  match ev with
  | .writeFile c => some c
  | _ => none

/-- The warning printed when a chunk's translation fails
(book_translator.py line 158). -/
def warnEv : Ev := Ev.log "Warning: Failed to translate chunk"

/-- The successful (truthy) translation results for a chunk list starting at
call index `n`, in original chunk order — the sections the orchestrator is
specified to keep when failures are skipped. -/
def successesFrom (api : Nat → ApiResult) : Nat → List String → List String
  | _, [] => []
  | n, _ :: rest =>
    match keptResult (api n) with
    | some s => s :: successesFrom api (n + 1) rest
    | none => successesFrom api (n + 1) rest

/-- Output events of `merge_translations`: a page-marker block, or an
`[Arabic]`/`[English]` line pair. -/
inductive MEv where
  | pageBlock (marker : String)
  | pair (ar en : String)
deriving DecidableEq

/-- The skip of merge_translations.py lines 42–44: advance the translated
stream past everything up to and including its next `Page ` marker line. -/
def skipPast (l : List String) : List String :=
  (l.dropWhile fun x => !(pstartsWith (pstrip x) "Page ")).drop 1

/-- Fuel-indexed embedding of the merge loop (merge_translations.py
lines 23–57): skip blank lines on either stream; on an Arabic `Page ` marker
emit a page block and resynchronise the English stream via `skipPast`;
otherwise emit the stripped line pair and advance both streams.  Every step
consumes at least one line, so fuel = total number of lines suffices. -/
def mlAux : Nat → List String → List String → List MEv
  | 0, _, _ => []
  | _ + 1, [], _ => []
  | _ + 1, _, [] => []
  | fuel + 1, a :: ars, e :: ens =>
    if pstrip a = "" then mlAux fuel ars (e :: ens)
    else if pstrip e = "" then mlAux fuel (a :: ars) ens
    else if pstartsWith (pstrip a) "Page " then
      MEv.pageBlock (pstrip a) :: mlAux fuel ars (skipPast (e :: ens))
    else MEv.pair (pstrip a) (pstrip e) :: mlAux fuel ars ens

/-- The merge loop on the two line lists. -/
def mergeLoop (ars ens : List String) : List MEv :=
  mlAux (ars.length + ens.length) ars ens

/-- Cut a character list at every newline (scanner for splitting into lines). -/
def par1Aux : List Char → List (List Char)
  | [] => [[]]
  | c :: rest => if c = '\n' then [] :: par1Aux rest else consHead c (par1Aux rest)

/-- Split a text into lines (models `readlines` followed by the per-line
`strip()` of the loop: keeping or dropping the trailing newline of each line is
immaterial, and a trailing empty line is skipped as blank). -/
def linesOf (s : String) : List String := (par1Aux s.data).map fun l => String.mk l

/-- `merge_translations` (merge_translations.py lines 1–62) as its sequence of
output events after the fixed file header: page blocks and line pairs in
written order. -/
def mergeEvents (arText enText : String) : List MEv :=
  mergeLoop (linesOf arText) (linesOf enText)

/-- Rendering of one merge event exactly as merge_translations.py
lines 36–54 write it. -/
def renderMEv : MEv → String
  | .pageBlock p =>
    "\n" ++ String.mk (List.replicate 40 '=') ++ "\n" ++ p ++ "\n" ++
      String.mk (List.replicate 40 '-') ++ "\n\n"
  | .pair a e =>
    "[Arabic]\n" ++ a ++ "\n\n[English]\n" ++ e ++ "\n" ++
      String.mk (List.replicate 40 '-') ++ "\n\n"

/-- The full text `merge_translations` writes: fixed header (lines 16–18)
followed by the rendered events. -/
def merge_translations (arText enText : String) : String :=
  String.mk (List.replicate 80 '=') ++ "\n" ++ "Arabic-English Translation\n" ++
    String.mk (List.replicate 80 '=') ++ "\n\n" ++
    joinSep "" ((mergeEvents arText enText).map renderMEv)

/-- Token counter used in concrete runs: the character count (a deterministic
stand-in for the external tokenizer, which is a parameter of the model). -/
def tokLen (s : String) : Nat := s.length

/-- Tokenizer valuing every character at 600 tokens (used to exhibit chunks
whose fragments fit the budget individually but not when joined). -/
def tok600 (s : String) : Nat := 600 * s.length

/-- Endpoint oracle that fails every call. -/
def apiErr (_ : Nat) : ApiResult := ApiResult.err "boom"

/-- Endpoint oracle that answers call `n` with `T<n>`. -/
def apiOk (n : Nat) : ApiResult := ApiResult.ok ("T" ++ toString n)

/-- Endpoint oracle failing exactly at call index 2. -/
def apiOne (n : Nat) : ApiResult :=
  if n = 2 then ApiResult.err "boom" else ApiResult.ok ("T" ++ toString n)

/-- Five-paragraph document used for the one-failure-among-five scenario. -/
def textFive : String := "p0\n\np1\n\np2\n\np3\n\np4"

/-- A line of 80 equals signs. -/
def eq80S : String := String.mk (List.replicate 80 '=')

/-- A document that begins with the 80-`=` delimited header block. -/
def docH : String := eq80S ++ "\nT\nA\n" ++ eq80S ++ "\n\nPage 1\n----\nbody"

/-- The header block `re.match` extracts from `docH`. -/
def hdrH : String := eq80S ++ "\nT\nA\n" ++ eq80S

/-- Arabic source of the specification's merge scenario. -/
def arDoc : String := "Page 1\n----\nمرحبا\nPage 2\n----\nشكرا"

/-- English translation of the specification's merge scenario. -/
def enDoc : String := "Page 1\n----\nHello\nPage 2\n----\nThanks"

/-- A page whose only `Page <digits>` occurrence sits inside paragraph text. -/
def pgMid : String := "intro\n\nsee Page 7 here\n\nmore"

/-- A page starting with a `Page <n>` header followed by a dashed divider. -/
def pgHdr : String := "Page 3\n---\nbody"

/-- A small labelled two-paragraph document whose candidates all fit the
budget. -/
def docP : String := "Page 1\n----\nhello\n\nworld"

set_option maxRecDepth 8000

/-! ### Helper lemmas about the greedy sentence accumulator -/

/-- Every chunk the accumulation loop emits either keeps the sum of its
fragments' token counts within the budget or is a lone over-budget fragment,
provided the running accumulator satisfies the same property. -/
lemma accSentences_good (tok : String → Nat) (M : Nat) :
    ∀ (sts cur : List String) (curTok : Nat),
      curTok = (cur.map tok).sum →
      ((cur.map tok).sum ≤ M ∨ ∃ s, cur = [s] ∧ M < tok s) →
      ∀ ch ∈ accSentences tok M sts cur curTok,
        ((ch.map tok).sum ≤ M ∨ ∃ s, ch = [s] ∧ M < tok s) := by
  intro sts
  induction sts with
  | nil =>
    intro cur curTok _ hgood ch hch
    simp only [accSentences] at hch
    by_cases hc : cur = []
    · simp [hc] at hch
    · rw [if_neg hc] at hch
      rcases List.mem_singleton.mp hch with rfl
      exact hgood
  | cons st rest ih =>
    intro cur curTok hsum hgood ch hch
    have hsingle : (([st].map tok).sum ≤ M ∨ ∃ s, [st] = [s] ∧ M < tok s) := by
      rcases le_or_lt (tok st) M with h | h
      · left; simpa using h
      · right; exact ⟨st, rfl, h⟩
    simp only [accSentences] at hch
    by_cases h1 : curTok + tok st > M
    · rw [if_pos h1] at hch
      by_cases h2 : cur = []
      · rw [if_pos h2] at hch
        exact ih [st] (tok st) (by simp) hsingle ch hch
      · rw [if_neg h2] at hch
        rcases List.mem_cons.mp hch with rfl | hch'
        · exact hgood
        · exact ih [st] (tok st) (by simp) hsingle ch hch'
    · rw [if_neg h1] at hch
      refine ih (cur ++ [st]) (curTok + tok st) (by simp [hsum]) ?_ ch hch
      left
      have : curTok + tok st ≤ M := Nat.not_lt.mp h1
      simpa [hsum] using this

/-- Per-paragraph version of the budget property. -/
lemma paraChunks_good (tok : String → Nat) (M : Nat) (pn : Option String)
    (para : String) :
    ∀ ch ∈ paraChunks tok M pn para,
      ((ch.map tok).sum ≤ M ∨ ∃ s, ch = [s] ∧ M < tok s) := by
  intro ch hch
  simp only [paraChunks] at hch
  by_cases h : tok (labelText pn para) > M
  · rw [if_pos h] at hch
    exact accSentences_good tok M _ [] 0 (by simp) (by simp) ch hch
  · rw [if_neg h] at hch
    rcases List.mem_singleton.mp hch with rfl
    left
    simpa using Nat.not_lt.mp h

/-- Per-page version of the budget property. -/
lemma pageChunksF_good (tok : String → Nat) (M : Nat) (page : String) :
    ∀ ch ∈ pageChunksF tok M page,
      ((ch.map tok).sum ≤ M ∨ ∃ s, ch = [s] ∧ M < tok s) := by
  intro ch hch
  unfold pageChunksF at hch
  by_cases h1 : pstrip page = ""
  · simp [h1] at hch
  · by_cases h2 : pageContent page = ""
    · simp [h1, h2] at hch
    · rw [if_neg h1, if_neg h2] at hch
      rcases List.mem_flatMap.mp hch with ⟨para, _, hp⟩
      exact paraChunks_good tok M _ para ch hp

/-! ### Helper lemmas for the fitting (one chunk per paragraph) case -/

/-- A labelled paragraph within budget is emitted immediately as its own
single-fragment chunk. -/
lemma paraChunks_fit (tok : String → Nat) (M : Nat) (pn : Option String)
    (para : String) (h : tok (labelText pn para) ≤ M) :
    paraChunks tok M pn para = [[labelText pn para]] := by
  simp only [paraChunks]
  rw [if_neg (Nat.not_lt.mpr h)]

/-- When every labelled paragraph of the list fits, the paragraph loop emits
exactly one single-fragment chunk per paragraph. -/
lemma flatMap_paraChunks_fit (tok : String → Nat) (M : Nat) (pn : Option String) :
    ∀ l : List String, (∀ p ∈ l, tok (labelText pn p) ≤ M) →
      l.flatMap (paraChunks tok M pn) = (l.map (labelText pn)).map fun c => [c] := by
  intro l
  induction l with
  | nil => intro _; rfl
  | cons p rest ih =>
    intro h
    rw [List.flatMap_cons, paraChunks_fit tok M pn p (h p (by simp)),
      ih fun q hq => h q (by simp [hq])]
    simp

/-- Per-page version of the fitting case. -/
lemma pageChunksF_fit (tok : String → Nat) (M : Nat) (page : String)
    (h : ∀ c ∈ pageCand page, tok c ≤ M) :
    pageChunksF tok M page = (pageCand page).map fun c => [c] := by
  by_cases h1 : pstrip page = ""
  · simp [pageChunksF, pageCand, h1]
  · by_cases h2 : pageContent page = ""
    · simp [pageChunksF, pageCand, h1, h2]
    · have h' : ∀ p ∈ pageParas page, tok (labelText (pageLabel page) p) ≤ M := by
        intro p hp
        refine h _ ?_
        simp only [pageCand, if_neg h1, if_neg h2]
        exact List.mem_map_of_mem _ hp
      simp only [pageChunksF, pageCand, if_neg h1, if_neg h2]
      exact flatMap_paraChunks_fit tok M _ (pageParas page) h'

/-- Text-level version of the fitting case, over an arbitrary page list. -/
lemma flatMap_pageChunksF_fit (tok : String → Nat) (M : Nat) :
    ∀ ps : List String, (∀ c ∈ ps.flatMap pageCand, tok c ≤ M) →
      ps.flatMap (pageChunksF tok M) = (ps.flatMap pageCand).map fun c => [c] := by
  intro ps
  induction ps with
  | nil => intro _; rfl
  | cons page rest ih =>
    intro h
    rw [List.flatMap_cons, List.flatMap_cons, List.map_append,
      pageChunksF_fit tok M page fun c hc => h c (by simp [hc]),
      ih fun c hc => h c (by simp [hc])]

/-- Joining a one-fragment chunk returns the fragment. -/
lemma joinSep_single (sep a : String) : joinSep sep [a] = a := rfl

/-! ### Helper lemmas about the orchestrator's chunk loop -/

/-- Two strings whose underlying character lists start differently are
distinct. -/
lemma procMsg_ne_warn (x : String) :
    "Processing chunk with " ++ x ++ " tokens" ≠ "Warning: Failed to translate chunk" := by
  intro h
  have h2 := congrArg String.data h
  have h3 : ("Processing chunk with " ++ x ++ " tokens").data
      = 'P' :: (("rocessing chunk with ").data ++ x.data ++ (" tokens").data) := rfl
  have h4 : ("Warning: Failed to translate chunk").data
      = 'W' :: ("arning: Failed to translate chunk").data := rfl
  rw [h3, h4] at h2
  injection h2 with h5 _
  exact absurd h5 (by decide)

/-- The endpoint-failure diagnostic is never the chunk-skip warning. -/
lemma errMsg_ne_warn (e : String) :
    "Error during translation: " ++ e ≠ "Warning: Failed to translate chunk" := by
  intro h
  have h2 := congrArg String.data h
  have h3 : ("Error during translation: " ++ e).data
      = 'E' :: (("rror during translation: ").data ++ e.data) := rfl
  have h4 : ("Warning: Failed to translate chunk").data
      = 'W' :: ("arning: Failed to translate chunk").data := rfl
  rw [h3, h4] at h2
  injection h2 with h5 _
  exact absurd h5 (by decide)

/-- The sections accumulated by the chunk loop are exactly the truthy
translation results, in original chunk order. -/
lemma chunkLoop_secs (tok : String → Nat) (api : Nat → ApiResult) :
    ∀ (n : Nat) (chunks : List String),
      (chunkLoop tok api n chunks).2 = successesFrom api n chunks := by
  intro n chunks
  induction chunks generalizing n with
  | nil => rfl
  | cons ch rest ih =>
    simp only [chunkLoop, successesFrom, keptResult]
    rcases hapi : api n with c | e
    · by_cases hc : pstrip c = "" <;>
        simp [translate_text, hc, ih]
    · simp [translate_text, ih]

/-- Every chunk is submitted to the endpoint, in order (the loop never
aborts). -/
lemma chunkLoop_calls (tok : String → Nat) (api : Nat → ApiResult) :
    ∀ (n : Nat) (chunks : List String),
      callTexts (chunkLoop tok api n chunks).1 = chunks := by
  intro n chunks
  induction chunks generalizing n with
  | nil => rfl
  | cons ch rest ih =>
    simp only [chunkLoop]
    rcases hapi : api n with c | e
    · by_cases hc : pstrip c = "" <;>
      · simp [translate_text, hc, callTexts]
        simpa [callTexts] using ih (n + 1)
    · simp [translate_text, callTexts]
      simpa [callTexts] using ih (n + 1)

/-- The chunk loop never writes the output file. -/
lemma chunkLoop_no_write (tok : String → Nat) (api : Nat → ApiResult) :
    ∀ (n : Nat) (chunks : List String),
      (chunkLoop tok api n chunks).1.filterMap writtenOf = [] := by
  intro n chunks
  induction chunks generalizing n with
  | nil => rfl
  | cons ch rest ih =>
    simp only [chunkLoop]
    rcases hapi : api n with c | e
    · by_cases hc : pstrip c = "" <;>
        simp [translate_text, hc, ih, writtenOf]
    · simp [translate_text, ih, writtenOf]

/-- The loop sleeps exactly once per truthy translation result. -/
lemma chunkLoop_sleep_count (tok : String → Nat) (api : Nat → ApiResult) :
    ∀ (n : Nat) (chunks : List String),
      (chunkLoop tok api n chunks).1.count (Ev.sleep 2)
        = (successesFrom api n chunks).length := by
  intro n chunks
  induction chunks generalizing n with
  | nil => rfl
  | cons ch rest ih =>
    simp only [chunkLoop, successesFrom, keptResult]
    rcases hapi : api n with c | e
    · by_cases hc : pstrip c = "" <;>
        simp [translate_text, hc, ih, List.count_cons, List.count_append]
    · simp [translate_text, ih, List.count_cons, List.count_append]

/-- There are never more kept sections than chunks. -/
lemma successesFrom_length_le (api : Nat → ApiResult) :
    ∀ (n : Nat) (chunks : List String),
      (successesFrom api n chunks).length ≤ chunks.length := by
  intro n chunks
  induction chunks generalizing n with
  | nil => simp [successesFrom]
  | cons ch rest ih =>
    simp only [successesFrom]
    rcases keptResult (api n) with _ | s
    · exact Nat.le_succ_of_le (ih (n + 1))
    · simpa using Nat.succ_le_succ (ih (n + 1))

/-- The loop prints the skip warning exactly once per falsy translation
result. -/
lemma chunkLoop_warn_count (tok : String → Nat) (api : Nat → ApiResult) :
    ∀ (n : Nat) (chunks : List String),
      (chunkLoop tok api n chunks).1.count warnEv
        = chunks.length - (successesFrom api n chunks).length := by
  intro n chunks
  induction chunks generalizing n with
  | nil => rfl
  | cons ch rest ih =>
    have hle := successesFrom_length_le api (n + 1) rest
    have ih' := ih (n + 1)
    simp only [warnEv] at ih' ⊢
    simp only [chunkLoop, successesFrom, keptResult]
    rcases hapi : api n with c | e
    · by_cases hc : pstrip c = "" <;>
      · simp [translate_text, hc, List.count_cons, List.count_append,
          procMsg_ne_warn, ih']
        try omega
    · simp [translate_text, List.count_cons, List.count_append,
        procMsg_ne_warn, errMsg_ne_warn, ih']
      omega

/-! ### Helper lemmas about the header phase and the run trace -/

/-- The header phase submits exactly the matched header. -/
lemma callTexts_hEvsOf (api : Nat → ApiResult) (text h : String)
    (hh : headerMatch text = some h) : callTexts (hEvsOf api text) = [h] := by
  simp only [hEvsOf, hh]
  rcases api 0 with c | e <;> simp [translate_text, callTexts]

/-- The header phase never writes the output file. -/
lemma hEvsOf_no_write (api : Nat → ApiResult) (text : String) :
    (hEvsOf api text).filterMap writtenOf = [] := by
  simp only [hEvsOf]
  rcases headerMatch text with _ | h
  · rfl
  · rcases api 0 with c | e <;> simp [translate_text, writtenOf]

/-! ### Helper lemmas about the page splitter -/

/-- Reading a positive run of equals signs followed by a newline from the
pending state completes a page separator. -/
lemma spAux_sep : ∀ (j n : Nat) (acc rest : List Char),
    spAux (List.replicate j '=' ++ '\n' :: rest) acc (some (n + 1))
      = acc :: spAux rest [] none := by
  intro j
  induction j with
  | zero => intro n acc rest; simp [spAux]
  | succ j ih =>
    intro n acc rest
    rw [List.replicate_succ, List.cons_append]
    simp only [spAux, if_pos rfl]
    exact ih (n + 1) acc rest

/-! ### Helper lemmas about the page-label search -/

/-- A position not starting with `P` cannot start a `Page <digits>` match. -/
lemma tryPageAt_ne (c : Char) (cs : List Char) (hc : c ≠ 'P') :
    tryPageAt (c :: cs) = none := by
  unfold tryPageAt
  split
  · rename_i heq; injection heq with h1 _; exact absurd h1 hc
  · rfl

/-- A boolean-valued `takeWhile` stops exactly at the end of a satisfying
prefix when the next element fails the predicate. -/
lemma takeWhile_append_all (p : Char → Bool) :
    ∀ (ds post : List Char), (∀ c ∈ ds, p c = true) →
      (∀ c ∈ post.take 1, p c = false) → (ds ++ post).takeWhile p = ds := by
  intro ds
  induction ds with
  | nil =>
    intro post _ hpost
    cases post with
    | nil => rfl
    | cons q post' =>
      have h := hpost q (by simp)
      simp [List.takeWhile_cons, h]
  | cons d ds' ih =>
    intro post hds hpost
    have h := hds d (by simp)
    simp [List.takeWhile_cons, h,
      ih post (fun c hc => hds c (by simp [hc])) hpost]

/-- `re.search(r'Page (\d+)', ...)` ignores a prefix containing no `P`. -/
lemma pageSearchL_skip : ∀ (pre rest : List Char), 'P' ∉ pre →
    pageSearchL (pre ++ rest) = pageSearchL rest := by
  intro pre
  induction pre with
  | nil => intro rest _; rfl
  | cons c pre' ih =>
    intro rest hP
    have hc : c ≠ 'P' := by intro h; exact hP (by simp [h])
    have hP' : 'P' ∉ pre' := fun h => hP (by simp [h])
    rw [List.cons_append]
    have step : pageSearchL (c :: (pre' ++ rest)) = pageSearchL (pre' ++ rest) := by
      conv_lhs => rw [pageSearchL]
      rw [tryPageAt_ne c _ hc]
    rw [step, ih rest hP']

/-- A `Page ` word followed by a non-empty digit run is matched, with the
digit run extending maximally. -/
lemma tryPageAt_match (ds post : List Char) (hne : ds ≠ [])
    (hds : ∀ c ∈ ds, c.isDigit = true) (hpost : ∀ c ∈ post.take 1, c.isDigit = false) :
    tryPageAt ('P' :: 'a' :: 'g' :: 'e' :: ' ' :: (ds ++ post))
      = some ('P' :: 'a' :: 'g' :: 'e' :: ' ' :: ds) := by
  simp only [tryPageAt]
  rw [takeWhile_append_all Char.isDigit ds post hds hpost]
  simp [List.isEmpty_iff, hne]

/-! ### Helper lemmas about the merge loop -/

/-- Dropping a prefix never lengthens a list. -/
lemma length_dropWhile_le {α : Type} (p : α → Bool) :
    ∀ l : List α, (l.dropWhile p).length ≤ l.length := by
  intro l
  induction l with
  | nil => simp
  | cons a t ih =>
    rw [List.dropWhile_cons]
    by_cases h : p a
    · simp only [if_pos h]
      exact Nat.le_succ_of_le ih
    · simp [if_neg h]

/-- The resynchronisation skip consumes at least one line. -/
lemma skipPast_length (e : String) (ens : List String) :
    (skipPast (e :: ens)).length ≤ ens.length := by
  unfold skipPast
  rw [List.length_drop]
  have := length_dropWhile_le (fun x => !(pstartsWith (pstrip x) "Page ")) (e :: ens)
  simp only [List.length_cons] at this
  omega

/-- The merge loop's result does not depend on the exact fuel, as long as the
fuel covers the total number of lines. -/
lemma mlAux_fuel : ∀ (f g : Nat) (ars ens : List String),
    ars.length + ens.length ≤ f → ars.length + ens.length ≤ g →
    mlAux f ars ens = mlAux g ars ens := by
  intro f
  induction f with
  | zero =>
    intro g ars ens hf _
    have ha : ars = [] := by
      cases ars with
      | nil => rfl
      | cons a t => simp at hf
    have he : ens = [] := by
      cases ens with
      | nil => rfl
      | cons a t =>
        subst ha
        simp at hf
    subst ha; subst he
    cases g <;> simp [mlAux]
  | succ f ihf =>
    intro g ars ens hf hg
    cases ars with
    | nil => cases g <;> simp [mlAux]
    | cons a ars' =>
      cases ens with
      | nil => cases g <;> simp [mlAux]
      | cons e ens' =>
        cases g with
        | zero => simp at hg
        | succ g' =>
          simp only [List.length_cons] at hf hg
          simp only [mlAux]
          by_cases h1 : pstrip a = ""
          · rw [if_pos h1, if_pos h1]
            exact ihf g' ars' (e :: ens') (by simp; omega) (by simp; omega)
          · rw [if_neg h1, if_neg h1]
            by_cases h2 : pstrip e = ""
            · rw [if_pos h2, if_pos h2]
              exact ihf g' (a :: ars') ens' (by simp; omega) (by simp; omega)
            · rw [if_neg h2, if_neg h2]
              by_cases h3 : pstartsWith (pstrip a) "Page " = true
              · rw [if_pos h3, if_pos h3]
                have hsk := skipPast_length e ens'
                rw [ihf g' ars' (skipPast (e :: ens')) (by omega) (by omega)]
              · rw [if_neg h3, if_neg h3]
                rw [ihf g' ars' ens' (by omega) (by omega)]

/-- When the translated stream decomposes as non-marker lines followed by a
marker, the skip lands exactly after that marker. -/
lemma skipPast_decomp (pre : List String) (m : String) (rest : List String)
    (hpre : ∀ x ∈ pre, pstartsWith (pstrip x) "Page " = false)
    (hm : pstartsWith (pstrip m) "Page " = true) :
    skipPast (pre ++ m :: rest) = rest := by
  unfold skipPast
  rw [List.dropWhile_append_of_pos (by intro x hx; simp [hpre x hx]),
    List.dropWhile_cons_of_neg (by simp [hm])]
  rfl

/-- One marker step of the merge loop: emit the page block and resume after
the next marker of the translated stream. -/
lemma mergeLoop_marker (a : String) (ars : List String) (e : String)
    (ens : List String) (ha : pstrip a ≠ "") (he : pstrip e ≠ "")
    (hm : pstartsWith (pstrip a) "Page " = true) :
    mergeLoop (a :: ars) (e :: ens)
      = MEv.pageBlock (pstrip a) :: mergeLoop ars (skipPast (e :: ens)) := by
  unfold mergeLoop
  have hsk := skipPast_length e ens
  have hstep : (a :: ars).length + (e :: ens).length
      = (ars.length + ens.length + 1) + 1 := by simp; omega
  rw [hstep]
  simp only [mlAux, if_neg ha, if_neg he, if_pos hm]
  rw [mlAux_fuel (ars.length + ens.length + 1) (ars.length + (skipPast (e :: ens)).length)
    ars (skipPast (e :: ens)) (by omega) (by omega)]

/-! ### Claim C1 -/

/-- C1 (counterexample): with budget 2000 and the tokenizer `tok600`
(600 tokens per character), the paragraph `a. b` is sentence-split into the
fragments `a.` (1200 tokens) and `b` (600 tokens), which the greedy loop packs
into one chunk because their sum 1800 fits the budget — yet the emitted,
newline-joined chunk `a.\nb` counts 2400 tokens, over the budget, and the
chunk is not a single sentence-level fragment.  The serialized chunk text can
therefore exceed the budget even for a multi-fragment chunk built by greedy
accumulation, contrary to the claim. -/
theorem claim1_counterexample :
    splitTextFrag tok600 2000 "a. b" = [["a.", "b"]] ∧
    split_text tok600 "a. b" = ["a.\nb"] ∧
    2000 < tok600 "a.\nb" ∧
    tok600 "a." ≤ 2000 ∧ tok600 "b" ≤ 2000 ∧ 2000 < tok600 "a. b" := by
  decide

/-- C1 (amended): every chunk `_split_text` emits either keeps the SUM of the
token counts of its individual (page-label-prefixed) fragments within the
budget 2000, or consists of a single sentence-level fragment whose own token
count already exceeds the budget.  (The greedy check of lines 83–91 bounds the
sum of the per-fragment counts, not the token count of the newline-joined
chunk text, which may exceed the budget by the cost of the separators.) -/
theorem claim1_amended (tok : String → Nat) (text : String) :
    ∀ ch ∈ splitTextFrag tok 2000 text,
      ((ch.map tok).sum ≤ 2000 ∨ ∃ s, ch = [s] ∧ 2000 < tok s) := by
  intro ch hch
  unfold splitTextFrag at hch
  rcases List.mem_flatMap.mp hch with ⟨page, _, hp⟩
  exact pageChunksF_good tok 2000 page ch hp

/-- C1 (witness): the amended invariant evaluated on the one-chunk document
`hi` with the length tokenizer. -/
theorem claim1_witness :
    ["hi"] ∈ splitTextFrag tokLen 2000 "hi" ∧
      (((["hi"] : List String).map tokLen).sum ≤ 2000 ∨
        ∃ s, (["hi"] : List String) = [s] ∧ 2000 < tokLen s) :=
  ⟨by decide, claim1_amended tokLen "hi" ["hi"] (by decide)⟩

/-! ### Claim C2 -/

/-- C2 (counterexample): the page splitter `re.split(r'\n=+\n', text)` cuts at
a line consisting of a single `=` character, so a line with fewer than 40 `=`
characters IS treated as a page boundary, contrary to the claim. -/
theorem claim2_counterexample :
    pages "a\n=\nb" = ["a", "b"] ∧ pages "a\n=\nb" ≠ ["a\n=\nb"] := by
  decide

/-- C2 (amended): the document is split into pages at every separator line
consisting of one or more `=` characters surrounded by newlines (the regex is
`\n=+\n`, with no minimum run length): for every positive `k`, a line of `k`
equals signs is a page boundary. -/
theorem claim2_amended (k : Nat) (hk : 0 < k) :
    pages (String.mk ('a' :: '\n' :: (List.replicate k '=' ++ ['\n', 'b'])))
      = ["a", "b"] := by
  obtain ⟨j, rfl⟩ : ∃ j, k = j + 1 := ⟨k - 1, by omega⟩
  show (spAux ('a' :: '\n' :: (List.replicate (j + 1) '=' ++ ['\n', 'b'])) []
    none).map (fun l => String.mk l) = ["a", "b"]
  rw [List.replicate_succ, List.cons_append]
  rw [show spAux ('a' :: '\n' :: '=' :: (List.replicate j '=' ++ ['\n', 'b'])) [] none
      = spAux ('=' :: (List.replicate j '=' ++ ['\n', 'b'])) ['a'] (some 0) from by
    simp [spAux]]
  rw [show spAux ('=' :: (List.replicate j '=' ++ ['\n', 'b'])) ['a'] (some 0)
      = spAux (List.replicate j '=' ++ '\n' :: ['b']) ['a'] (some 1) from by
    simp [spAux]]
  rw [spAux_sep j 0 ['a'] ['b']]
  decide

/-- C2 (witness): the amended boundary behaviour evaluated at a 40-`=` line. -/
theorem claim2_witness :
    pages (String.mk ('a' :: '\n' :: (List.replicate 40 '=' ++ ['\n', 'b'])))
      = ["a", "b"] :=
  claim2_amended 40 (by decide)

/-! ### Claim C3 -/

/-- C3: when every labelled paragraph candidate of a document fits the token
budget, `_split_text` emits exactly one chunk per stripped, non-empty
paragraph — the labelled paragraph itself — in original page and paragraph
order, with no batching of paragraphs. -/
theorem claim3_one_chunk_per_paragraph (tok : String → Nat) (text : String)
    (H : ∀ c ∈ specCandidates text, tok c ≤ 2000) :
    split_text tok text = specCandidates text := by
  unfold specCandidates at H ⊢
  unfold split_text splitTextFrag
  rw [flatMap_pageChunksF_fit tok 2000 (pages text) H, List.map_map]
  have hid : (joinSep "\n" ∘ fun c : String => [c]) = id := by
    funext c; rfl
  rw [hid, List.map_id]

/-- C3 (witness): the one-chunk-per-paragraph behaviour on the two-paragraph
labelled document `docP`. -/
theorem claim3_witness :
    (∀ c ∈ specCandidates docP, tokLen c ≤ 2000) ∧
      split_text tokLen docP = ["Page 1\nhello", "Page 1\nworld"] :=
  ⟨by decide,
    (claim3_one_chunk_per_paragraph tokLen docP (by decide)).trans (by decide)⟩

/-! ### Claim C4 -/

/-- C4 (counterexample): a run over the one-chunk document `hi` whose only
translation call fails produces no sleep event at all — the `time.sleep(2)`
sits inside the success branch (line 156), so no delay follows a failed call,
contrary to the claim that the delay is unconditional. -/
theorem claim4_counterexample :
    translate_book tokLen apiErr "out" (.ok "hi") (.ok ())
      = [Ev.log "Processing chunk with 2 tokens", Ev.call "hi",
         Ev.log "Error during translation: boom",
         Ev.log "Warning: Failed to translate chunk",
         Ev.writeFile "", Ev.log "Book translation completed. Output saved to out"] ∧
    Ev.call "hi" ∈ translate_book tokLen apiErr "out" (.ok "hi") (.ok ()) ∧
    Ev.sleep 2 ∉ translate_book tokLen apiErr "out" (.ok "hi") (.ok ()) := by
  decide

/-- C4 (amended): in the chunk loop of `translate_book` the fixed 2-second
sleep happens exactly once per successful (truthy) translation result, and a
failed call is followed by the skip warning instead of a delay: the number of
sleep events equals the number of kept sections and the number of warnings
equals the number of failed chunks. -/
theorem claim4_amended (tok : String → Nat) (api : Nat → ApiResult) (n : Nat)
    (chunks : List String) :
    (chunkLoop tok api n chunks).1.count (Ev.sleep 2)
        = (successesFrom api n chunks).length ∧
    (chunkLoop tok api n chunks).1.count warnEv
        = chunks.length - (successesFrom api n chunks).length :=
  ⟨chunkLoop_sleep_count tok api n chunks, chunkLoop_warn_count tok api n chunks⟩

/-! ### Claim C5 -/

/-- C5: `translate_text` always returns — either the stripped translation, or,
on any raised endpoint error, `None` (the failure marker) after printing a
diagnostic; no exception passes its boundary (the model's result is total and
carries no exception channel). -/
theorem claim5_translate_text_total (r : ApiResult) :
    (∃ s, translate_text r = (some s, [])) ∨
      (∃ e, r = ApiResult.err e ∧
        translate_text r = (none, [Ev.log ("Error during translation: " ++ e)])) := by
  cases r with
  | ok c => exact Or.inl ⟨pstrip c, rfl⟩
  | err e => exact Or.inr ⟨e, rfl, rfl⟩

/-! ### Claim C6 -/

/-- C6: for any endpoint behaviour, `translate_book` submits every chunk (no
abort), writes exactly one output whose chunk part is the list of successful
translations in original chunk order, and prints one skip warning per failed
chunk.  Concretely, with one failure among the five chunks of `textFive`, the
written output is the four successful translations joined in order. -/
theorem claim6_skip_and_continue :
    (∀ (tok : String → Nat) (api : Nat → ApiResult) (out text : String),
      (translate_book tok api out (.ok text) (.ok ())).filterMap writtenOf
          = [joinSep "\n\n" (hSecsOf api text
              ++ successesFrom api (hCount text) (split_text tok text))] ∧
      callTexts (chunkLoop tok api (hCount text) (split_text tok text)).1
          = split_text tok text ∧
      (chunkLoop tok api (hCount text) (split_text tok text)).1.count warnEv
          = (split_text tok text).length
            - (successesFrom api (hCount text) (split_text tok text)).length) ∧
    (translate_book tokLen apiOne "o" (.ok textFive) (.ok ())).filterMap writtenOf
        = ["T0\n\nT1\n\nT3\n\nT4"] := by
  constructor
  · intro tok api out text
    refine ⟨?_, chunkLoop_calls tok api _ _, chunkLoop_warn_count tok api _ _⟩
    simp only [translate_book, bookBody]
    rw [List.filterMap_append, List.filterMap_append, hEvsOf_no_write,
      chunkLoop_no_write, chunkLoop_secs]
    simp [writtenOf]
  · decide

/-! ### Claim C7 -/

/-- C7 (counterexample): with an unreadable input file, `translate_book` does
NOT fail with the IOError — the catch-all `except Exception` of lines 169–170
swallows it: the call returns normally with only the printed diagnostic, and
no exception propagates. -/
theorem claim7_counterexample :
    translateBookEx tokLen apiErr "o" (.error "IOError: input unreadable") (.ok ())
        = Except.ok [Ev.log "Error during book translation: IOError: input unreadable"] ∧
      translateBookEx tokLen apiErr "o" (.error "IOError: input unreadable") (.ok ())
        ≠ Except.error "IOError: input unreadable" :=
  ⟨congrArg Except.ok (by decide), fun h => Except.noConfusion h⟩

/-- C7 (amended): file-level failures do end the run — an unreadable input
yields a run whose only effect is the terminal diagnostic (nothing is
translated or written), and an unwritable output yields a run that writes
nothing and ends with the terminal diagnostic — but the exception is caught by
`translate_book`'s own top-level handler and reported via a printed
diagnostic; it is not raised to the caller (it is swallowed just like
per-chunk failures, only without the loop continuing). -/
theorem claim7_amended :
    (∀ (tok : String → Nat) (api : Nat → ApiResult) (out e : String)
        (w : Except String Unit),
      translate_book tok api out (.error e) w
        = [Ev.log ("Error during book translation: " ++ e)]) ∧
    (∀ (tok : String → Nat) (api : Nat → ApiResult) (out text e : String),
      (translate_book tok api out (.ok text) (.error e)).filterMap writtenOf = [] ∧
      (translate_book tok api out (.ok text) (.error e)).getLast?
        = some (Ev.log ("Error during book translation: " ++ e))) := by
  constructor
  · intro tok api out e w
    rfl
  · intro tok api out text e
    constructor
    · simp only [translate_book, bookBody]
      rw [List.filterMap_append, List.filterMap_append, hEvsOf_no_write,
        chunkLoop_no_write]
      simp [writtenOf]
    · simp only [translate_book, bookBody]
      rw [List.getLast?_concat]

/-! ### Claim C8 -/

/-- C8: whenever the source stream sits on a non-blank `Page ` marker line
(and the translated stream on a non-blank line), the merge loop emits the page
block and resumes with the translated stream advanced past all lines up to and
including its next `Page ` marker; and on the specification's two-page
example the produced events pair `مرحبا` with `Hello` under `Page 1` and
`شكرا` with `Thanks` under `Page 2` (each divider line likewise pairs with its
counterpart). -/
theorem claim8_merge_sync :
    (∀ (a : String) (ars : List String) (e : String) (ens pre rest : List String)
        (m : String),
      pstrip a ≠ "" → pstartsWith (pstrip a) "Page " = true →
      pstrip e ≠ "" →
      e :: ens = pre ++ m :: rest →
      (∀ x ∈ pre, pstartsWith (pstrip x) "Page " = false) →
      pstartsWith (pstrip m) "Page " = true →
      mergeLoop (a :: ars) (e :: ens)
        = MEv.pageBlock (pstrip a) :: mergeLoop ars rest) ∧
    mergeEvents arDoc enDoc =
      [MEv.pageBlock "Page 1", MEv.pair "----" "----", MEv.pair "مرحبا" "Hello",
       MEv.pageBlock "Page 2", MEv.pair "----" "----", MEv.pair "شكرا" "Thanks"] := by
  constructor
  · intro a ars e ens pre rest m ha hma he hdec hpre hm
    rw [mergeLoop_marker a ars e ens ha he hma, hdec,
      skipPast_decomp pre m rest hpre hm]
  · decide

/-- C8 (witness): the resynchronisation step applied to a concrete state whose
translated stream holds one non-marker line before its next marker. -/
theorem claim8_witness :
    mergeLoop ["Page 1"] ["x", "Page 2", "y"]
      = MEv.pageBlock "Page 1" :: mergeLoop [] ["y"] :=
  claim8_merge_sync.1 "Page 1" [] "x" ["Page 2", "y"] ["x"] ["y"] "Page 2"
    (by decide) (by decide) (by decide) rfl (by decide) (by decide)

/-- Submitted texts distribute over trace concatenation. -/
lemma callTexts_append (l l' : List Ev) :
    callTexts (l ++ l') = callTexts l ++ callTexts l' := by
  simp [callTexts]

/-! ### Claim C9 -/

/-- C9: whenever the document starts with the 80-`=` delimited header block,
`translate_book` submits the matched header as its own translation request AND
still runs the Segmenter over the whole text, so the submitted texts are the
header followed by every chunk of the full document.  Concretely, on `docH`
the chunk list itself begins with the chunk `eq80S ++ "\nT\nA"` cut from the
header region, so the header's text (title and author lines) is submitted
twice: once standalone and once inside the first chunk. -/
theorem claim9_header_translated_twice :
    (∀ (tok : String → Nat) (api : Nat → ApiResult) (out text h : String),
      headerMatch text = some h →
      callTexts (translate_book tok api out (.ok text) (.ok ()))
        = h :: split_text tok text) ∧
    (headerMatch docH = some hdrH ∧
      split_text tokLen docH = [eq80S ++ "\nT\nA", "Page 1\nbody"]) := by
  constructor
  · intro tok api out text h hh
    simp only [translate_book, bookBody]
    rw [callTexts_append, callTexts_append, callTexts_hEvsOf api text h hh,
      chunkLoop_calls]
    simp [callTexts]
  · exact ⟨by decide, by decide⟩

/-- C9 (witness): the double submission evaluated on `docH`. -/
theorem claim9_witness :
    callTexts (translate_book tokLen apiOk "o" (.ok docH) (.ok ()))
      = hdrH :: split_text tokLen docH :=
  claim9_header_translated_twice.1 tokLen apiOk "o" docH hdrH (by decide)

/-! ### Claim C10 -/

/-- C10: the page label comes from the FIRST occurrence of `Page <digits>`
anywhere in the page body — the search skips any label-free prefix, which may
span several lines — and only occurrences followed by a newline and a dashed
divider line are stripped by the `re.sub`: on `pgMid` the mid-paragraph
`Page 7` becomes the label of every chunk of the page while the body keeps the
occurrence, and on `pgHdr` the leading `Page 3\n---\n` block is removed. -/
theorem claim10_label_from_anywhere :
    (∀ (pre ds post : List Char), 'P' ∉ pre → ds ≠ [] →
      (∀ c ∈ ds, c.isDigit = true) → (∀ c ∈ post.take 1, c.isDigit = false) →
      pageSearchL (pre ++ ('P' :: 'a' :: 'g' :: 'e' :: ' ' :: (ds ++ post)))
        = some ('P' :: 'a' :: 'g' :: 'e' :: ' ' :: ds)) ∧
    (pageLabel pgMid = some "Page 7" ∧
      pageContent pgMid = pgMid ∧
      pageChunksF tokLen 2000 pgMid
        = [["Page 7\nintro"], ["Page 7\nsee Page 7 here"], ["Page 7\nmore"]] ∧
      pageLabel pgHdr = some "Page 3" ∧ pageContent pgHdr = "body") := by
  constructor
  · intro pre ds post hP hne hds hpost
    rw [pageSearchL_skip pre _ hP]
    have hm := tryPageAt_match ds post hne hds hpost
    conv_lhs => rw [pageSearchL]
    rw [hm]
  · exact ⟨by decide, by decide, by decide, by decide, by decide⟩

/-- C10 (witness): the anywhere-search evaluated on a prefix that is not a
header line. -/
theorem claim10_witness :
    pageSearchL (['x', '\n'] ++ ('P' :: 'a' :: 'g' :: 'e' :: ' ' :: (['4'] ++ ['z'])))
      = some ('P' :: 'a' :: 'g' :: 'e' :: ' ' :: ['4']) :=
  claim10_label_from_anywhere.1 ['x', '\n'] ['4'] ['z'] (by decide) (by decide)
    (by decide) (by decide)
